import Mathlib

/-!
Verification of the query-resolution core of spotify-downloader
(spotdl/utils/search.py, queryparsers.py, songfetchers.py, ytm.py).

Python strings are embedded as `List Char`; Python's substring operator
`pat in s`, `s.startswith`, `s.endswith` and `s.lower()` are embedded as
executable boolean functions below, and `str.split` on the literal `"|"`
separator as `splitPipe`.  Fallible code is embedded as `Except`.
Network calls (Spotify / YouTube-Music fetches, redirect resolution) are
taken as explicit function arguments or as already-fetched values, since
they are opaque collaborators of this core.
-/

/-- Python strings, embedded as lists of characters. -/
abbrev Str := List Char

/-- A Lean string literal as a `Str`. -/
def str (s : String) : Str := s.data

/-- `startsWithB pat s`: `s` starts with `pat` (Python `s.startswith(pat)`). -/
def startsWithB : Str → Str → Bool
  | [], _ => true
  | _ :: _, [] => false
  | a :: as, b :: bs => a == b && startsWithB as bs

/-- `strContains s pat`: `pat` occurs contiguously in `s` (Python `pat in s`). -/
def strContains (s pat : Str) : Bool :=
  match s with
  | [] => startsWithB pat []
  | _ :: rest => startsWithB pat s || strContains rest pat

/-- Python `s.endswith(pat)`. -/
def endsWithB (s pat : Str) : Bool := startsWithB pat.reverse s.reverse

/-- Python `s.lower()` (ASCII case folding, which covers every string the
code compares). -/
def lowerStr (s : Str) : Str := s.map Char.toLower

theorem startsWithB_iff (pat s : Str) :
    startsWithB pat s = true ↔ ∃ t, s = pat ++ t := by
  induction pat generalizing s with
  | nil => simp [startsWithB]
  | cons a as ih =>
    cases s with
    | nil => simp [startsWithB]
    | cons b bs =>
      simp only [startsWithB, Bool.and_eq_true, beq_iff_eq, ih]
      constructor
      · rintro ⟨rfl, t, rfl⟩; exact ⟨t, rfl⟩
      · rintro ⟨t, h⟩
        injection h with h1 h2
        exact ⟨h1.symm, t, h2⟩

theorem strContains_iff (s pat : Str) :
    strContains s pat = true ↔ ∃ l r, s = l ++ pat ++ r := by
  induction s with
  | nil =>
    simp only [strContains, startsWithB_iff]
    constructor
    · rintro ⟨t, h⟩
      exact ⟨[], t, by simpa using h⟩
    · rintro ⟨l, r, h⟩
      have h2 : l = [] ∧ pat = [] ∧ r = [] := by
        simpa using h.symm
      rcases h2 with ⟨rfl, rfl, rfl⟩
      exact ⟨[], by simp⟩
  | cons c cs ih =>
    simp only [strContains, Bool.or_eq_true, startsWithB_iff, ih]
    constructor
    · rintro (⟨t, h⟩ | ⟨l, r, h⟩)
      · exact ⟨[], t, by simpa using h⟩
      · exact ⟨c :: l, r, by simp [h]⟩
    · rintro ⟨l, r, h⟩
      cases l with
      | nil => exact Or.inl ⟨r, by simpa using h⟩
      | cons x xs =>
        injection h with h1 h2
        exact Or.inr ⟨xs, r, h2⟩

/-- Containment survives extending the string on either side. -/
theorem strContains_append_left (x s pat : Str)
    (h : strContains s pat = true) : strContains (x ++ s) pat = true := by
  rcases (strContains_iff s pat).mp h with ⟨l, r, rfl⟩
  exact (strContains_iff _ _).mpr ⟨x ++ l, r, by simp⟩

theorem strContains_append_right (s x pat : Str)
    (h : strContains s pat = true) : strContains (s ++ x) pat = true := by
  rcases (strContains_iff s pat).mp h with ⟨l, r, rfl⟩
  exact (strContains_iff _ _).mpr ⟨l, r ++ x, by simp⟩

/-- Containment is transitive: a substring of a substring is a substring. -/
theorem strContains_trans {s p q : Str}
    (hsp : strContains s p = true) (hpq : strContains p q = true) :
    strContains s q = true := by
  rcases (strContains_iff s p).mp hsp with ⟨l, r, rfl⟩
  rcases (strContains_iff p q).mp hpq with ⟨l2, r2, rfl⟩
  exact (strContains_iff _ _).mpr ⟨l ++ l2, r2 ++ r, by simp⟩

example : strContains (str "https://open.spotify.com/track/Y") (str "track") = true := by decide
example : startsWithB (str "ab") (str "abc") = true := by decide
example : endsWithB (str "file.spotdl") (str ".spotdl") = true := by decide
example : lowerStr (str "Thriller (Deluxe Edition)") = str "thriller (deluxe edition)" := by decide

/-! ## The internationalization-segment substitution

search.py line 144: `request = re.sub(r"\/intl-\w+\/", "/", request)`,
applied to every incoming request string before matcher dispatch.
`\w` is embedded as ASCII word characters, which covers the url path
segments the pattern targets. -/

/-- Python's `\w` on ASCII input: letters, digits and the underscore. -/
def isWordChar (c : Char) : Bool := c.isAlphanum || c == '_'

/-- Match the regex `\/intl-\w+\/` at the head of the string; on success
return what follows the match (the whole match, its closing `/` included,
is consumed; the replacement re-inserts a `/`).  The greedy `\w+` takes the
maximal run of word characters; since `/` is not a word character, regex
backtracking can never produce a different match. -/
def matchIntl (s : Str) : Option Str :=
  if startsWithB (str "/intl-") s then
    let rest := s.drop 6
    let w := rest.takeWhile isWordChar
    let rest2 := rest.drop w.length
    if w.isEmpty then none
    else if startsWithB (str "/") rest2 then some (rest2.drop 1)
    else none
  else none

/-- `re.sub` scanning loop, with explicit fuel (the fuel is always at least
the length of the string, which suffices because each match consumes at
least eight characters). -/
def intlSubAux : Nat → Str → Str
  | 0, s => s
  | _ + 1, [] => []
  | fuel + 1, c :: rest =>
    match matchIntl (c :: rest) with
    | some tail => '/' :: intlSubAux fuel tail
    | none => c :: intlSubAux fuel rest

/-- search.py line 144: collapse every `/intl-<token>/` occurrence to `/`. -/
def intlSub (s : Str) : Str := intlSubAux s.length s

/-- Whether the regex `\/intl-\w+\/` matches anywhere in the string. -/
def hasIntl : Str → Bool
  | [] => false
  | c :: rest => (matchIntl (c :: rest)).isSome || hasIntl rest

/-- A successful head match consumes at least eight characters
(`/intl-` plus at least one word character plus `/`). -/
theorem matchIntl_length {s tail : Str} (h : matchIntl s = some tail) :
    tail.length + 8 ≤ s.length := by
  unfold matchIntl at h
  by_cases h6 : startsWithB (str "/intl-") s = true
  · simp only [h6, if_true] at h
    set rest := s.drop 6 with hrest
    set w := rest.takeWhile isWordChar with hw
    by_cases hempty : w.isEmpty
    · simp [hempty] at h
    · simp only [hempty, if_false] at h
      by_cases hslash : startsWithB (str "/") (rest.drop w.length) = true
      · simp only [hslash, if_true] at h
        injection h with h
        have hlens : 6 ≤ s.length := by
          rcases (startsWithB_iff _ _).mp h6 with ⟨t, rfl⟩
          simp [str]
        have hrl : rest.length = s.length - 6 := by
          rw [hrest]; simp
        have hwle : w.length ≤ rest.length := by
          rw [hw]; exact List.Sublist.length_le (List.takeWhile_sublist isWordChar)
        have hwpos : 1 ≤ w.length := by
          cases hww : w with
          | nil => rw [hww] at hempty; simp at hempty
          | cons a b => simp [hww]
        have hr2 : 1 ≤ (rest.drop w.length).length := by
          rcases (startsWithB_iff _ _).mp hslash with ⟨t, ht⟩
          rw [ht]; simp [str]
        have htl : tail.length = (rest.drop w.length).length - 1 := by
          rw [← h]; simp; omega
        have hr2l : (rest.drop w.length).length = rest.length - w.length := by
          simp
        omega
      · simp [hslash] at h
  · simp [h6] at h

/-- The scanning loop's result never gets longer. -/
theorem intlSubAux_length_le :
    ∀ (n : Nat) (s : Str), s.length ≤ n → (intlSubAux n s).length ≤ s.length := by
  intro n
  induction n with
  | zero => intro s _; simp [intlSubAux]
  | succ n ih =>
    intro s hs
    cases s with
    | nil => simp [intlSubAux]
    | cons c rest =>
      simp only [intlSubAux]
      cases hm : matchIntl (c :: rest) with
      | some tail =>
        have h8 := matchIntl_length hm
        have : tail.length ≤ n := by
          simp only [List.length_cons] at h8 hs; omega
        have := ih tail this
        simp only [List.length_cons] at h8 ⊢
        omega
      | none =>
        have : rest.length ≤ n := by
          simp only [List.length_cons] at hs; omega
        have := ih rest this
        simp only [List.length_cons]
        omega

/-- If the regex matches anywhere, the substitution strictly shortens the
string (each match replaces at least eight characters by one). -/
theorem intlSubAux_length_lt :
    ∀ (n : Nat) (s : Str), s.length ≤ n → hasIntl s = true →
      (intlSubAux n s).length < s.length := by
  intro n
  induction n with
  | zero =>
    intro s hs hint
    interval_cases hl : s.length
    · cases s with
      | nil => simp [hasIntl] at hint
      | cons c rest => simp at hl
  | succ n ih =>
    intro s hs hint
    cases s with
    | nil => simp [hasIntl] at hint
    | cons c rest =>
      simp only [intlSubAux]
      cases hm : matchIntl (c :: rest) with
      | some tail =>
        have h8 := matchIntl_length hm
        have htn : tail.length ≤ n := by
          simp only [List.length_cons] at h8 hs; omega
        have := intlSubAux_length_le n tail htn
        simp only [List.length_cons] at h8 ⊢
        omega
      | none =>
        have hrest : hasIntl rest = true := by
          simp only [hasIntl, hm, Option.isSome_none, Bool.false_or] at hint
          exact hint
        have : rest.length ≤ n := by
          simp only [List.length_cons] at hs; omega
        have := ih rest this hrest
        simp only [List.length_cons]
        omega

/-- If the regex matches nowhere, the substitution is the identity. -/
theorem intlSub_of_not_hasIntl :
    ∀ s : Str, hasIntl s = false → intlSub s = s := by
  intro s
  induction s with
  | nil => intro _; rfl
  | cons c rest ih =>
    intro h
    simp only [hasIntl, Bool.or_eq_false_iff] at h
    obtain ⟨hm0, hrest⟩ := h
    have hm : matchIntl (c :: rest) = none := by
      cases hmm : matchIntl (c :: rest)
      · rfl
      · rw [hmm] at hm0; simp at hm0
    have hrec : intlSubAux rest.length rest = rest := ih hrest
    simp only [intlSub, List.length_cons, intlSubAux, hm, hrec]

/-- The substitution fixes a string exactly when the regex matches nowhere
in it. -/
theorem intlSub_eq_self_iff (s : Str) : intlSub s = s ↔ hasIntl s = false := by
  constructor
  · intro h
    by_contra hne
    have hint : hasIntl s = true := by
      cases hh : hasIntl s
      · exact absurd hh hne
      · rfl
    have := intlSubAux_length_lt s.length s le_rfl hint
    simp only [intlSub] at h
    rw [h] at this
    omega
  · exact intlSub_of_not_hasIntl s

example : intlSub (str "https://open.spotify.com/intl-de/track/X") =
    str "https://open.spotify.com/track/X" := by decide
example : intlSub (str "https://spotify.link/abc123") = str "https://spotify.link/abc123" := by decide

/-! ## Value objects

The Track/TrackList record types live in `spotdl/types/`, which is not part
of the staged sources; only the fields the staged code reads and writes are
carried here. -/

/-- Modelled from the spec: the Track record of `spotdl.types.song.Song`
(not under `src/`).  Per §3 of the spec every field may be null during
partial construction, so each field is an `Option`; only the fields the
verified code manipulates are carried. -/
structure Song where
  url : Option Str
  name : Option Str
  artist : Option Str
  album_name : Option Str
  download_url : Option Str
  song_id : Option Str
  list_position : Option Nat
deriving DecidableEq, Repr

/-- `Song.from_missing_data(url=…, download_url=…)` as called by
`YouTubeSpotifyTrackParser.parse` (queryparsers.py line 73): every omitted
field defaults to null. -/
def Song.fromMissingDataUrlDownload (url download_url : Str) : Song :=
  ⟨some url, none, none, none, some download_url, none, none⟩

/-- Modelled from the spec: the TrackList record of `spotdl.types.song`
(not under `src/`): list-level metadata plus the ordered member sequence;
its `length` is the derived member count (§3: "derived length = count of
members"). -/
structure SongList where
  name : Str
  url : Str
  songs : List Song
  isPlaylistVariant : Bool
deriving DecidableEq, Repr

/-- Derived member count of a list (spec §3). -/
def SongList.length (l : SongList) : Nat := l.songs.length

/-- The raise sites of the staged code, keyed by the spec's §7 taxonomy.
The source raises `QueryError` with distinct messages (and Python
`AttributeError` for the null-album crash); the constructor payloads stand
for those messages. -/
inductive PyError where
  /-- queryparsers.py line 68: 'Incorrect format used, please use
  "YouTubeURL|SpotifyURL"'. -/
  | formatError
  /-- queryparsers.py line 129: 'Incorrect format used, please use
  "YouTubeMusicURL|SpotifyURL". …'. -/
  | playlistFormatError
  /-- queryparsers.py line 145: 'URLs are not of the same type, …'. -/
  | typeMismatchError
  /-- queryparsers.py line 151: 'The YouTube Music (a) and Spotify (b)
  lists have different lengths.'. -/
  | lengthMismatchError (ytmLen spotLen : Nat)
  /-- search.py line 419: 'Song object is missing required data to be
  reinitialized'. -/
  | missingReinitDataError
  /-- Python `AttributeError`: `None.lower()` in search.py line 199. -/
  | attributeError
deriving DecidableEq, Repr

/-! ## The pattern-matcher registry

queryparsers.py: each class's `can_handle`, and `get_query_parsers`'s fixed
order (lines 343-364).  `get_simple_songs` (search.py lines 146-153) walks
that list and `break`s after the first parser whose `can_handle` accepts
the request. -/

/-- One tag per `QueryParser` subclass of queryparsers.py. -/
inductive ParserId where
  | youTubeSpotifyTrack
  | youTubeMusicTrack
  | youTubePlaylist
  | spotifyTrack
  | spotifyLink
  | spotifyPlaylist
  | spotifyAlbum
  | spotifyArtist
  | spotifyUser
  | albumSearch
  | playlistSearch
  | artistSearch
  | saved
  | allUserPlaylists
  | allUserFollowedArtists
  | allUserSavedAlbums
  | allSavedPlaylists
  | spotdlFile
  | defaultSearch
deriving DecidableEq, Repr

open ParserId in
/-- Each parser's `can_handle` test, translated clause by clause from
queryparsers.py. -/
def canHandle : ParserId → Str → Bool
  | youTubeSpotifyTrack, r =>
    (strContains r (str "watch?v=") || strContains r (str "youtu.be/")
      || strContains r (str "soundcloud.com/") || strContains r (str "bandcamp.com/"))
    && strContains r (str "open.spotify.com")
    && strContains r (str "track")
    && strContains r (str "|")
  | youTubeMusicTrack, r => strContains r (str "music.youtube.com/watch?v")
  | youTubePlaylist, r =>
    strContains r (str "youtube.com/playlist?list=")
      || strContains r (str "youtube.com/browse/VLPL")
  | spotifyTrack, r =>
    strContains r (str "open.spotify.com") && strContains r (str "track")
  | spotifyLink, r => strContains r (str "https://spotify.link/")
  | spotifyPlaylist, r =>
    strContains r (str "open.spotify.com") && strContains r (str "playlist")
  | spotifyAlbum, r =>
    strContains r (str "open.spotify.com") && strContains r (str "album")
  | spotifyArtist, r =>
    strContains r (str "open.spotify.com") && strContains r (str "artist")
  | spotifyUser, r =>
    strContains r (str "open.spotify.com") && strContains r (str "user")
  | albumSearch, r => strContains r (str "album:")
  | playlistSearch, r => strContains r (str "playlist:")
  | artistSearch, r => strContains r (str "artist:")
  | saved, r => r == str "saved"
  | allUserPlaylists, r => r == str "all-user-playlists"
  | allUserFollowedArtists, r => r == str "all-user-followed-artists"
  | allUserSavedAlbums, r => r == str "all-user-saved-albums"
  | allSavedPlaylists, r => r == str "all-saved-playlists"
  | spotdlFile, r => endsWithB r (str ".spotdl")
  | defaultSearch, _ => true

open ParserId in
/-- `get_query_parsers` (queryparsers.py lines 343-364): the fixed matcher
order. -/
def registry : List ParserId :=
  [youTubeSpotifyTrack, youTubeMusicTrack, youTubePlaylist, spotifyTrack,
   spotifyLink, spotifyPlaylist, spotifyAlbum, spotifyArtist, spotifyUser,
   albumSearch, playlistSearch, artistSearch, saved, allUserPlaylists,
   allUserFollowedArtists, allUserSavedAlbums, allSavedPlaylists,
   spotdlFile, defaultSearch]

/-- The `for parser in parsers: if parser.can_handle(request): …; break`
loop of `get_simple_songs` (search.py lines 146-153): the first parser
whose test accepts the request, if any. -/
def dispatchLoop : List ParserId → Str → Option ParserId
  | [], _ => none
  | p :: ps, r => if canHandle p r then some p else dispatchLoop ps r

/-- What `get_simple_songs` does to each raw request before the parser
loop: only the `/intl-<token>/` substitution of line 144. -/
def processedRequest (r : Str) : Str := intlSub r

/-- The parser `get_simple_songs` hands each request to. -/
def selectedParser (r : Str) : Option ParserId :=
  dispatchLoop registry (processedRequest r)

/-! ## The dual-reference track parser

`YouTubeSpotifyTrackParser.parse` (queryparsers.py lines 54-75).
`request.split("|")` is embedded as `splitPipe`. -/

/-- Python `request.split("|")`. -/
def splitPipe : Str → List Str
  | [] => [[]]
  | c :: rest =>
    if c = '|' then [] :: splitPipe rest
    else
      match splitPipe rest with
      | h :: t => (c :: h) :: t
      | [] => [[c]]

/-- The video-side marker test of `parse` (queryparsers.py lines 61-64;
note `youtu.be` here, without the trailing slash of `can_handle`). -/
def hasVideoMarkerP (u : Str) : Bool :=
  strContains u (str "watch?v=") || strContains u (str "youtu.be")
    || strContains u (str "soundcloud.com/") || strContains u (str "bandcamp.com/")

/-- `YouTubeSpotifyTrackParser.parse`: split on `|`; unless the first
segment carries a video-host marker and the second contains `spotify`,
raise the FormatError; otherwise build a partial Song whose identity url
is the second segment and whose download url is the first. -/
def youTubeSpotifyTrackParse (request : Str) :
    Except PyError (Option Song × Option SongList) :=
  match splitPipe request with
  | u0 :: u1 :: _ =>
    if hasVideoMarkerP u0 && strContains u1 (str "spotify") then
      .ok (some (Song.fromMissingDataUrlDownload u1 u0), none)
    else .error .formatError
  | _ => .error .formatError

/-! ## The dual-reference playlist/album merge

`YouTubePlaylistParser.parse` (queryparsers.py lines 150-163), after the
two lists have been fetched (`create_ytm_album`/`create_ytm_playlist` and
`Album.from_url`/`Playlist.from_url` are network calls; the fetched lists
are taken as arguments). -/

/-- Replace a song's identity url (the in-place `song.url = …` of
queryparsers.py line 158). -/
def Song.withUrl (s : Song) (u : Option Str) : Song :=
  ⟨u, s.name, s.artist, s.album_name, s.download_url, s.song_id, s.list_position⟩

/-- Replace a song's download url (the in-place `song.download_url = …` of
queryparsers.py line 162). -/
def Song.withDownloadUrl (s : Song) (u : Option Str) : Song :=
  ⟨s.url, s.name, s.artist, s.album_name, u, s.song_id, s.list_position⟩

/-- Replace a list's member sequence, keeping its other metadata. -/
def SongList.withSongs (l : SongList) (songs : List Song) : SongList :=
  ⟨l.name, l.url, songs, l.isPlaylistVariant⟩

/-- queryparsers.py lines 150-163: the length guard, then the per-index
cross-population chosen by `use_ytm_data`. -/
def dualListMerge (useYtmData : Bool) (ytmList spotList : SongList) :
    Except PyError (Option Song × Option SongList) :=
  if ytmList.length ≠ spotList.length then
    .error (.lengthMismatchError ytmList.length spotList.length)
  else if useYtmData then
    .ok (none, some (ytmList.withSongs
      (List.zipWith (fun y s => y.withUrl s.url) ytmList.songs spotList.songs)))
  else
    .ok (none, some (spotList.withSongs
      (List.zipWith (fun s y => s.withDownloadUrl y.download_url)
        spotList.songs ytmList.songs)))

/-! ## The short-link parser

`SpotifyLinkParser.parse` (queryparsers.py lines 180-192): resolve the
redirect (a network HEAD request, taken as an argument), recursively run
`get_simple_songs` on the canonical url (taken as an argument), and return
only the first resulting song, never a list. -/

/-- `SpotifyLinkParser.parse` over the redirect resolution and the
recursive pipeline run. -/
def spotifyLinkParse (resolveRedirect : Str → Str) (recurse : Str → List Song)
    (request : Str) : Option Song × Option SongList :=
  let fullLists := recurse (resolveRedirect request)
  ((match fullLists with
    | [] => none
    | s :: _ => some s), none)

/-! ## The re-resolution merge

`reinit_song` (search.py lines 397-430 and, identically, songfetchers.py
lines 318-351).  The loop `for key in Song.__dataclass_fields__` merges
the existing record `data` with the freshly fetched record `new_data`
field by field; records are embedded as maps from a field-key type to
optional values. -/

/-- A stand-in for `Song.__dataclass_fields__`: what matters to the merge
is only that fields are treated uniformly, so the key type is abstract. -/
inductive SongKey where
  | url | name | artist | album_name | album_artist | duration
  | explicit | download_url | song_id | cover_url | track_number
deriving DecidableEq, Repr

/-- A song record as `song.json` presents it: every field optional. -/
def SongData (α : Type) := SongKey → Option α

/-- The loop body of `reinit_song` (search.py lines 422-427) for one
field: `val` is the existing value, `newVal` the freshly fetched one. -/
def mergeField {α : Type} (val newVal : Option α) : Option α :=
  if newVal.isSome && !val.isSome then newVal
  else if newVal.isSome && val.isSome then val
  else val

/-- The whole merge loop of `reinit_song`: `mergeField` on every field. -/
def reinitMergeData {α : Type} (data newData : SongData α) : SongData α :=
  fun k => mergeField (data k) (newData k)

/-! ## The ignore-albums filter

search.py lines 193-202: when `albums_to_ignore` is non-empty, keep only
the songs for which every keyword misses `song.album_name.lower()`.
`song.album_name.lower()` raises Python `AttributeError` when
`album_name` is null, so the per-song test is fallible. -/

/-- One keyword test `keyword not in song.album_name.lower()`
(search.py line 199): evaluating it on a null album name raises. -/
def keywordCheck (song : Song) (keyword : Str) : Except PyError Bool :=
  match song.album_name with
  | none => .error .attributeError
  | some an => .ok (!(strContains (lowerStr an) keyword))

/-- Python `all(…)` over a fallible generator: short-circuits on the first
false, propagates the first raise. -/
def allE {α : Type} (f : α → Except PyError Bool) : List α → Except PyError Bool
  | [] => .ok true
  | a :: as =>
    match f a with
    | .error e => .error e
    | .ok true => allE f as
    | .ok false => .ok false

/-- A Python list comprehension with a fallible predicate: propagates the
first raise, otherwise filters. -/
def filterE {α : Type} (f : α → Except PyError Bool) : List α → Except PyError (List α)
  | [] => .ok []
  | a :: as =>
    match f a with
    | .error e => .error e
    | .ok true =>
      match filterE f as with
      | .error e => .error e
      | .ok l => .ok (a :: l)
    | .ok false => filterE f as

/-- search.py lines 193-202: the `if albums_to_ignore:` guard (a Python
truthiness test: `None` and the empty list skip the step) and the
comprehension. -/
def ignoreAlbumsFilter (albumsToIgnore : List Str) (songs : List Song) :
    Except PyError (List Song) :=
  if albumsToIgnore.isEmpty then .ok songs
  else filterE (fun song => allE (keywordCheck song) albumsToIgnore) songs

/-! ## The parallel re-resolution fan-out

`parse_query` (search.py lines 104-114): one `reinit_song` task per song;
each task's exception is caught and logged with the song's display name,
and only that song is left out of `results`.  The thread scheduling is
abstracted to submission order; `reinit_song`'s network fetches make the
per-task outcome an argument (`reinit`), and `display_name` (a property of
the out-of-scope Song type) is likewise an argument. -/

/-- The collection loop of `parse_query`: first component the collected
results, second the log of `(display_name, exception)` pairs from
`logger.error` (search.py line 112). -/
def parseQueryFanout (displayName : Song → Str) (reinit : Song → Except Str Song) :
    List Song → List Song × List (Str × Str)
  | [] => ([], [])
  | song :: rest =>
    let r := parseQueryFanout displayName reinit rest
    match reinit song with
    | .ok s2 => (s2 :: r.1, r.2)
    | .error e => (r.1, (displayName song, e) :: r.2)

/-! ## Supporting lemmas -/

/-- Splitting a separator-free string returns it whole. -/
theorem splitPipe_no_pipe (s : Str) (h : '|' ∉ s) : splitPipe s = [s] := by
  induction s with
  | nil => rfl
  | cons c rest ih =>
    have hc : ¬c = '|' := fun hc => h (hc ▸ List.mem_cons_self c rest)
    have hr : '|' ∉ rest := fun hr => h (List.mem_cons_of_mem c hr)
    simp only [splitPipe, hc, if_false, ih hr]

/-- Splitting around the first separator, when the left part is
separator-free. -/
theorem splitPipe_append (v s : Str) (hv : '|' ∉ v) :
    splitPipe (v ++ '|' :: s) = v :: splitPipe s := by
  induction v with
  | nil => simp [splitPipe]
  | cons c rest ih =>
    have hc : ¬c = '|' := fun hc => hv (hc ▸ List.mem_cons_self c rest)
    have hr : '|' ∉ rest := fun hr => hv (List.mem_cons_of_mem c hr)
    simp only [List.cons_append, splitPipe, hc, if_false, List.append_eq, ih hr]

/-- The parser loop either rejects everything or selects exactly the first
accepting parser, skipping all later ones. -/
theorem dispatchLoop_first (l : List ParserId) (r : Str) :
    (∀ p ∈ l, canHandle p r = false) ∨
    ∃ pre p post, l = pre ++ p :: post ∧ dispatchLoop l r = some p ∧
      canHandle p r = true ∧ ∀ q ∈ pre, canHandle q r = false := by
  induction l with
  | nil => left; intro p hp; simp at hp
  | cons a as ih =>
    by_cases ha : canHandle a r = true
    · right
      exact ⟨[], a, as, rfl, by simp [dispatchLoop, ha], ha, by intro q hq; simp at hq⟩
    · have ha' : canHandle a r = false := by
        cases hh : canHandle a r
        · rfl
        · exact absurd hh ha
      rcases ih with hall | ⟨pre, p, post, heq, hd, hp, hpre⟩
      · left
        intro p hp
        rcases List.mem_cons.mp hp with rfl | h
        · exact ha'
        · exact hall p h
      · right
        refine ⟨a :: pre, p, post, by rw [heq, List.cons_append], ?_, hp, ?_⟩
        · simp only [dispatchLoop, ha', Bool.false_eq_true, if_false]
          exact hd
        · intro q hq
          rcases List.mem_cons.mp hq with rfl | h
          · exact ha'
          · exact hpre q h

/-- `allE` over raise-free tests is Python's `all`. -/
theorem allE_ok {α : Type} (g : α → Bool) (f : α → Except PyError Bool)
    (hfg : ∀ a, f a = .ok (g a)) (l : List α) : allE f l = .ok (l.all g) := by
  induction l with
  | nil => rfl
  | cons a as ih =>
    simp only [allE, hfg a]
    cases hg : g a with
    | true => simp [ih, hg]
    | false => simp [hg]

/-- `filterE` over raise-free tests is a plain filter. -/
theorem filterE_ok {α : Type} (g : α → Bool) (f : α → Except PyError Bool)
    (hfg : ∀ a, f a = .ok (g a)) (l : List α) : filterE f l = .ok (l.filter g) := by
  induction l with
  | nil => rfl
  | cons a as ih =>
    simp only [filterE, hfg a]
    cases hg : g a with
    | true => simp [ih, hg, List.filter_cons, if_true]
    | false => simp [ih, hg, List.filter_cons]

/-! ## Claim theorems -/

/-- C1: every input string is claimed by at least one matcher (the Default
matcher's test is constantly true and it is last in the fixed registry
order), and the dispatch loop of `get_simple_songs` invokes exactly the
first matcher whose applicability test succeeds, all earlier matchers
having rejected the input and all later ones being skipped. -/
theorem registry_first_match_total (r : Str) :
    canHandle ParserId.defaultSearch r = true ∧
    registry.getLast? = some ParserId.defaultSearch ∧
    ∃ pre p post, registry = pre ++ p :: post ∧
      dispatchLoop registry r = some p ∧ canHandle p r = true ∧
      ∀ q ∈ pre, canHandle q r = false := by
  refine ⟨rfl, rfl, ?_⟩
  rcases dispatchLoop_first registry r with hall | h
  · have hmem : ParserId.defaultSearch ∈ registry := by decide
    have := hall ParserId.defaultSearch hmem
    simp [canHandle] at this
  · exact h

/-- C2: the re-resolution merge policy of `reinit_song`, field by field:
a present fresh value fills an absent existing one; when both are present
the existing value wins; an absent fresh value changes nothing (the
existing value, present or absent, is kept). -/
theorem reinit_merge_field_policy {α : Type} (data newData : SongData α) (k : SongKey) :
    (data k = none → ∀ v, newData k = some v →
      reinitMergeData data newData k = some v) ∧
    (∀ v w, data k = some v → newData k = some w →
      reinitMergeData data newData k = some v) ∧
    (newData k = none → reinitMergeData data newData k = data k) := by
  refine ⟨?_, ?_, ?_⟩
  · intro hd v hn
    simp [reinitMergeData, mergeField, hd, hn]
  · intro v w hd hn
    simp [reinitMergeData, mergeField, hd, hn]
  · intro hn
    cases hd : data k with
    | none => simp [reinitMergeData, mergeField, hd, hn]
    | some v => simp [reinitMergeData, mergeField, hd, hn]

/-- C5: the re-resolution fan-out of `parse_query` is total and isolates
failures per track: the results are exactly the successful
re-resolutions (a failure never disturbs the other tracks), and every
failing track is logged with its display name and the raised error and
contributes nothing to the results. -/
theorem fanout_error_isolation (displayName : Song → Str)
    (reinit : Song → Except Str Song) (songs : List Song) :
    (parseQueryFanout displayName reinit songs).1
      = songs.filterMap (fun s =>
          match reinit s with
          | .ok s2 => some s2
          | .error _ => none) ∧
    (parseQueryFanout displayName reinit songs).2
      = songs.filterMap (fun s =>
          match reinit s with
          | .ok _ => none
          | .error e => some (displayName s, e)) := by
  induction songs with
  | nil => exact ⟨rfl, rfl⟩
  | cons song rest ih =>
    simp only [parseQueryFanout, List.filterMap_cons]
    cases h : reinit song with
    | ok s2 => simp [h, ih.1, ih.2]
    | error e => simp [h, ih.1, ih.2]

/-- C9: the short-link matcher returns at most one Song — the first
element of the recursively resolved and expanded sequence — and never a
SongList; every member of the resolved list beyond the first is
discarded. -/
theorem shortlink_single_song (resolveRedirect : Str → Str)
    (recurse : Str → List Song) (request : Str) :
    (spotifyLinkParse resolveRedirect recurse request).2 = none ∧
    (recurse (resolveRedirect request) = [] →
      (spotifyLinkParse resolveRedirect recurse request).1 = none) ∧
    ∀ s rest, recurse (resolveRedirect request) = s :: rest →
      (spotifyLinkParse resolveRedirect recurse request).1 = some s := by
  refine ⟨rfl, ?_, ?_⟩
  · intro h
    simp [spotifyLinkParse, h]
  · intro s rest h
    simp [spotifyLinkParse, h]

/-- C3: a dual-reference track input `videoURL|streamingTrackURL` is
claimed by the dual-reference matcher, and parsing it yields a partial
Track whose identity url is the streaming-side segment (after the `|`)
and whose alternate download-source url is the video-side segment
(before the `|`); with the two sides swapped, parsing raises the
FormatError. -/
theorem dual_ref_track_parse_spec (v s : Str)
    (hvnp : '|' ∉ v) (hsnp : '|' ∉ s)
    (hv : (strContains v (str "watch?v=") || strContains v (str "youtu.be/")
      || strContains v (str "soundcloud.com/")
      || strContains v (str "bandcamp.com/")) = true)
    (hs1 : strContains s (str "open.spotify.com") = true)
    (hs2 : strContains s (str "track") = true)
    (hsnov : hasVideoMarkerP s = false) :
    canHandle ParserId.youTubeSpotifyTrack (v ++ '|' :: s) = true ∧
    youTubeSpotifyTrackParse (v ++ '|' :: s)
      = .ok (some (Song.fromMissingDataUrlDownload s v), none) ∧
    youTubeSpotifyTrackParse (s ++ '|' :: v) = .error .formatError := by
  have hconsv : ∀ pat : Str, strContains v pat = true →
      strContains (v ++ '|' :: s) pat = true := by
    intro pat h
    exact strContains_append_right v ('|' :: s) pat h
  have hconss : ∀ pat : Str, strContains s pat = true →
      strContains (v ++ '|' :: s) pat = true := by
    intro pat h
    have h2 : strContains (['|'] ++ s) pat = true :=
      strContains_append_left ['|'] s pat h
    exact strContains_append_left v ('|' :: s) pat h2
  have hvP : hasVideoMarkerP v = true := by
    unfold hasVideoMarkerP
    simp only [Bool.or_eq_true] at hv ⊢
    rcases hv with ((h1 | h2) | h3) | h4
    · exact Or.inl (Or.inl (Or.inl h1))
    · exact Or.inl (Or.inl (Or.inr (strContains_trans h2 (by decide))))
    · exact Or.inl (Or.inr h3)
    · exact Or.inr h4
  have hspot : strContains s (str "spotify") = true :=
    strContains_trans hs1 (by decide)
  have hsplit : splitPipe (v ++ '|' :: s) = [v, s] := by
    rw [splitPipe_append v s hvnp, splitPipe_no_pipe s hsnp]
  have hsplit2 : splitPipe (s ++ '|' :: v) = [s, v] := by
    rw [splitPipe_append s v hsnp, splitPipe_no_pipe v hvnp]
  refine ⟨?_, ?_, ?_⟩
  · simp only [canHandle, Bool.and_eq_true, Bool.or_eq_true]
    refine ⟨⟨⟨?_, hconss _ hs1⟩, hconss _ hs2⟩, ?_⟩
    · simp only [Bool.or_eq_true] at hv
      rcases hv with ((h1 | h2) | h3) | h4
      · exact Or.inl (Or.inl (Or.inl (hconsv _ h1)))
      · exact Or.inl (Or.inl (Or.inr (hconsv _ h2)))
      · exact Or.inl (Or.inr (hconsv _ h3))
      · exact Or.inr (hconsv _ h4)
    · refine (strContains_iff _ _).mpr ⟨v, s, ?_⟩
      simp [str]
  · simp only [youTubeSpotifyTrackParse, hsplit, hvP, hspot, Bool.and_self, if_true]
  · simp only [youTubeSpotifyTrackParse, hsplit2, hsnov, Bool.false_and,
      Bool.false_eq_true, if_false]

/-- The video side of the concrete dual-reference example. -/
def videoUrlDemo : Str := str "https://www.youtube.com/watch?v=X"

/-- The streaming side of the concrete dual-reference example. -/
def trackUrlDemo : Str := str "https://open.spotify.com/track/Y"

/-- Witness for the dual-reference track claim at the spec's own example
input. -/
theorem dual_ref_track_parse_spec_witness :
    canHandle ParserId.youTubeSpotifyTrack (videoUrlDemo ++ '|' :: trackUrlDemo) = true ∧
    youTubeSpotifyTrackParse (videoUrlDemo ++ '|' :: trackUrlDemo)
      = .ok (some (Song.fromMissingDataUrlDownload trackUrlDemo videoUrlDemo), none) ∧
    youTubeSpotifyTrackParse (trackUrlDemo ++ '|' :: videoUrlDemo) = .error .formatError :=
  dual_ref_track_parse_spec videoUrlDemo trackUrlDemo (by decide) (by decide)
    (by decide) (by decide) (by decide) (by decide)

/-- C4: when the two dual-referenced lists report unequal member counts,
the merge raises the LengthMismatchError (carrying both counts) and
produces no cross-populated output at all; when the counts are equal, the
caller-supplied flag chooses which list is returned, with per-index
metadata cross-populated from the other list: identity urls copied from
the streaming side onto the video side, or alternate-source urls copied
from the video side onto the streaming side. -/
theorem dual_list_merge_guard (useYtmData : Bool) (ytmList spotList : SongList) :
    (ytmList.length ≠ spotList.length →
      dualListMerge useYtmData ytmList spotList
        = .error (.lengthMismatchError ytmList.length spotList.length)) ∧
    (ytmList.length = spotList.length →
      ∃ out, dualListMerge useYtmData ytmList spotList = .ok (none, some out) ∧
        out.songs.length = ytmList.songs.length ∧
        (useYtmData = true → out.name = ytmList.name ∧ out.url = ytmList.url ∧
          ∀ i (h1 : i < ytmList.songs.length) (h2 : i < spotList.songs.length)
            (h3 : i < out.songs.length),
            out.songs.get ⟨i, h3⟩
              = (ytmList.songs.get ⟨i, h1⟩).withUrl
                  (spotList.songs.get ⟨i, h2⟩).url) ∧
        (useYtmData = false → out.name = spotList.name ∧ out.url = spotList.url ∧
          ∀ i (h1 : i < ytmList.songs.length) (h2 : i < spotList.songs.length)
            (h3 : i < out.songs.length),
            out.songs.get ⟨i, h3⟩
              = (spotList.songs.get ⟨i, h2⟩).withDownloadUrl
                  (ytmList.songs.get ⟨i, h1⟩).download_url)) := by
  constructor
  · intro hne
    simp only [dualListMerge, if_pos hne]
  · intro heq
    have heq' : ytmList.songs.length = spotList.songs.length := heq
    have hif : ¬ytmList.length ≠ spotList.length := by
      intro h; exact h heq
    cases useYtmData with
    | true =>
      refine ⟨ytmList.withSongs
        (List.zipWith (fun y s => y.withUrl s.url) ytmList.songs spotList.songs),
        ?_, ?_, ?_, ?_⟩
      · simp only [dualListMerge, if_neg hif]
        simp
      · simp only [SongList.withSongs, List.length_zipWith, heq', Nat.min_self]
      · intro _
        refine ⟨rfl, rfl, ?_⟩
        intro i h1 h2 h3
        simp only [SongList.withSongs] at h3 ⊢
        simp only [List.get_eq_getElem, List.getElem_zipWith]
      · intro h
        exact absurd h (by simp)
    | false =>
      refine ⟨spotList.withSongs
        (List.zipWith (fun s y => s.withDownloadUrl y.download_url)
          spotList.songs ytmList.songs),
        ?_, ?_, ?_, ?_⟩
      · simp only [dualListMerge, if_neg hif, Bool.false_eq_true, if_false]
      · simp only [SongList.withSongs, List.length_zipWith, heq', Nat.min_self]
      · intro h
        exact absurd h (by simp)
      · intro _
        refine ⟨rfl, rfl, ?_⟩
        intro i h1 h2 h3
        simp only [SongList.withSongs] at h3 ⊢
        simp only [List.get_eq_getElem, List.getElem_zipWith]

/-- Counterexample to C6: the short-link input reaches the matcher
registry untouched — the only pre-dispatch normalization is the
`/intl-<token>/` strip, so the string handed to the matchers still
matches the short-link domain, and it is an individual matcher
(SpotifyLinkParser) that claims it; resolution has not happened before
dispatch. -/
theorem shortlink_dispatched_unresolved :
    processedRequest (str "https://spotify.link/abc123")
      = str "https://spotify.link/abc123" ∧
    strContains (processedRequest (str "https://spotify.link/abc123"))
      (str "https://spotify.link/") = true ∧
    selectedParser (str "https://spotify.link/abc123")
      = some ParserId.spotifyLink := by
  refine ⟨by decide, by decide, by decide⟩

/-- C6 as amended: short-link resolution happens inside the dedicated
short-link matcher, not before dispatch: the pre-dispatch step is only
the `/intl-<token>/` strip, the short-link domain check is exactly the
SpotifyLinkParser matcher's applicability test, and that matcher's parse
resolves the redirect and re-runs the pipeline recursively on the
canonical url, keeping only the first resulting song. -/
theorem shortlink_resolved_inside_matcher (resolveRedirect : Str → Str)
    (recurse : Str → List Song) (r : Str) :
    processedRequest r = intlSub r ∧
    canHandle ParserId.spotifyLink r = strContains r (str "https://spotify.link/") ∧
    spotifyLinkParse resolveRedirect recurse r
      = ((recurse (resolveRedirect r)).head?, none) := by
  refine ⟨rfl, rfl, ?_⟩
  unfold spotifyLinkParse
  cases recurse (resolveRedirect r) with
  | nil => rfl
  | cons a l => rfl

deriving instance DecidableEq for Except

/-- A complete track whose album name contains "Deluxe". -/
def songThriller : Song :=
  ⟨some (str "https://open.spotify.com/track/T"), some (str "Beat It"),
   some (str "Michael Jackson"), some (str "Thriller (Deluxe Edition)"),
   none, none, none⟩

/-- Counterexample to C7: the containment test lowercases only the album
name, not the keywords — with the uppercase keyword `DELUXE` the album
name contains the keyword case-insensitively, yet the filter keeps the
track instead of dropping it. -/
theorem ignore_filter_keyword_case_not_folded :
    songThriller.album_name = some (str "Thriller (Deluxe Edition)") ∧
    strContains (lowerStr (str "Thriller (Deluxe Edition)"))
      (lowerStr (str "DELUXE")) = true ∧
    ignoreAlbumsFilter [str "DELUXE"] [songThriller] = .ok [songThriller] := by
  refine ⟨rfl, by decide, by decide⟩

/-- The keyword filter comprehension on songs whose album names are all
present: a plain filter against the lowercased album name. -/
theorem filterE_keywords (kws : List Str) :
    ∀ songs : List Song, (∀ s ∈ songs, (s.album_name).isSome = true) →
      filterE (fun song => allE (keywordCheck song) kws) songs
        = .ok (songs.filter (fun s => kws.all (fun kw =>
            !(strContains (lowerStr ((s.album_name).getD [])) kw)))) := by
  intro songs
  induction songs with
  | nil => intro _; rfl
  | cons song rest ih =>
    intro h
    have hsong := h song (List.mem_cons_self song rest)
    have hrest : ∀ s ∈ rest, (s.album_name).isSome = true :=
      fun s hs => h s (List.mem_cons_of_mem song hs)
    cases han : song.album_name with
    | none => rw [han] at hsong; simp at hsong
    | some an =>
      have hall : allE (keywordCheck song) kws
          = .ok (kws.all (fun kw => !(strContains (lowerStr an) kw))) :=
        allE_ok _ _ (fun kw => by simp [keywordCheck, han]) kws
      cases hb : kws.all (fun kw => !(strContains (lowerStr an) kw)) with
      | true =>
        rw [hb] at hall
        simp only [filterE, hall, ih hrest, List.filter_cons, han,
          Option.getD_some, hb, if_true]
      | false =>
        rw [hb] at hall
        simp only [filterE, hall, List.filter_cons, han, Option.getD_some,
          hb, Bool.false_eq_true, if_false]
        exact ih hrest

/-- C7 as amended: on tracks whose album names are all present, the
ignore-albums filter drops exactly the tracks whose lowercased album name
contains one of the keywords verbatim — case folding is applied to the
album name only, so keywords match case-insensitively only when they are
themselves lowercase. -/
theorem ignore_filter_folds_album_name_only (kws : List Str) (songs : List Song)
    (h : ∀ s ∈ songs, (s.album_name).isSome = true) :
    ignoreAlbumsFilter kws songs = .ok (songs.filter (fun s =>
      kws.all (fun kw =>
        !(strContains (lowerStr ((s.album_name).getD [])) kw)))) := by
  unfold ignoreAlbumsFilter
  by_cases hk : kws.isEmpty = true
  · have hk' : kws = [] := by
      cases kws with
      | nil => rfl
      | cons a as => simp at hk
    subst hk'
    rw [if_pos hk]
    congr 1
    symm
    apply List.filter_eq_self.mpr
    intro a _
    rfl
  · rw [if_neg hk]
    exact filterE_keywords kws songs h

/-- Witness for the amended ignore-albums claim at the spec's example:
with the lowercase keyword `deluxe`, the Thriller track is dropped. -/
theorem ignore_filter_folds_album_name_only_witness :
    ignoreAlbumsFilter [str "deluxe"] [songThriller]
      = .ok (([songThriller]).filter (fun s => ([str "deluxe"]).all (fun kw =>
          !(strContains (lowerStr ((s.album_name).getD [])) kw)))) :=
  ignore_filter_folds_album_name_only [str "deluxe"] [songThriller] (by decide)

/-- Counterexample to C8: the `/intl-<token>/` substitution is applied to
every input unconditionally, so a plain free-text input (not a url) that
happens to contain the pattern is altered before it reaches the
matchers. -/
theorem intl_strip_alters_non_url :
    processedRequest (str "not a url /intl-en/ just words")
      = str "not a url / just words" ∧
    str "not a url / just words" ≠ str "not a url /intl-en/ just words" := by
  refine ⟨by decide, by decide⟩

/-- C8 as amended: the normalization is applied to every input string
uniformly, url or not: an input reaches the matchers unchanged exactly
when it contains no `/intl-<token>/` segment; any such segment — as in
the internationalized Spotify url of the concrete conjunct — is collapsed
to `/`. -/
theorem intl_strip_uniform (s : Str) :
    processedRequest s = intlSub s ∧
    (intlSub s = s ↔ hasIntl s = false) ∧
    intlSub (str "https://open.spotify.com/intl-de/track/X")
      = str "https://open.spotify.com/track/X" :=
  ⟨rfl, intlSub_eq_self_iff s, by decide⟩

/-- C10: with a non-empty excluded-keywords list, the ignore-albums step
of `get_simple_songs` applies `.lower()` to every song's album name
unconditionally, so as soon as some collected song carries a null album
name the step raises (Python `AttributeError`) instead of keeping or
dropping that track. -/
theorem ignore_filter_raises_on_null_album (kws : List Str) (songs : List Song)
    (hk : kws ≠ []) (h : ∃ s ∈ songs, s.album_name = none) :
    ignoreAlbumsFilter kws songs = .error .attributeError := by
  have hke : kws.isEmpty = false := by
    cases kws with
    | nil => exact absurd rfl hk
    | cons a as => rfl
  unfold ignoreAlbumsFilter
  rw [hke]
  simp only [Bool.false_eq_true, if_false]
  induction songs with
  | nil => rcases h with ⟨s, hs, _⟩; simp at hs
  | cons song rest ih =>
    cases han : song.album_name with
    | none =>
      have hfirst : allE (keywordCheck song) kws = .error .attributeError := by
        cases kws with
        | nil => exact absurd rfl hk
        | cons k ks => simp [allE, keywordCheck, han]
      simp only [filterE, hfirst]
    | some an =>
      have hrest : ∃ s ∈ rest, s.album_name = none := by
        rcases h with ⟨s, hs, hnone⟩
        rcases List.mem_cons.mp hs with rfl | hmem
        · rw [han] at hnone; exact absurd hnone (by simp)
        · exact ⟨s, hmem, hnone⟩
      have hall : allE (keywordCheck song) kws
          = .ok (kws.all (fun kw => !(strContains (lowerStr an) kw))) :=
        allE_ok _ _ (fun kw => by simp [keywordCheck, han]) kws
      cases hb : kws.all (fun kw => !(strContains (lowerStr an) kw)) with
      | true =>
        rw [hb] at hall
        simp only [filterE, hall, ih hrest]
      | false =>
        rw [hb] at hall
        simp only [filterE, hall]
        exact ih hrest

/-- The spec's dual-reference example input. -/
def dualRefRequest : Str :=
  str "https://www.youtube.com/watch?v=X|https://open.spotify.com/track/Y"

/-- The partial track the dual-reference parser builds from
`dualRefRequest`: only url and download url are set. -/
def dualRefSong : Song :=
  Song.fromMissingDataUrlDownload (str "https://open.spotify.com/track/Y")
    (str "https://www.youtube.com/watch?v=X")

/-- Witness for C10: the dual-reference track input yields a partial song
with a null album name, on which the non-empty ignore-albums filter
raises. -/
theorem ignore_filter_raises_on_null_album_witness :
    youTubeSpotifyTrackParse dualRefRequest = .ok (some dualRefSong, none) ∧
    dualRefSong.album_name = none ∧
    ignoreAlbumsFilter [str "deluxe"] [dualRefSong] = .error .attributeError :=
  ⟨by decide, rfl,
    ignore_filter_raises_on_null_album [str "deluxe"] [dualRefSong]
      (by decide) ⟨dualRefSong, by simp, rfl⟩⟩
